import Mathlib

/-!
Verification development for the skunk-cli repository: a shallow embedding of
the skill installer of the CLI, plugin installer, license validator, command router
and update handler, together with theorems settling the specification claims.

Modelling conventions:
* Filesystem paths are lists of segments (`Path`); the HOME directory is the
  segment "HOME".  The filesystem is a set of existing directories plus a map
  from file paths to contents.
* HTTPS traffic is an oracle `String → HttpResp` mapping a URL to the response
  (status / body / Location header) or a connection error.
* Console output and side effects (subprocess invocations, `which` probes,
  outgoing GETs of the skill installer) are recorded as an event trace.
* Process exit code starts at 0 and is only changed by an explicit
  `process.exit` call; none of the modelled handlers performs one.
* JavaScript string methods used by the scripts are modelled charwise over
  `String.data` so that every definition evaluates inside the kernel.
-/

namespace SkunkCLI

/-- Path in the filesystem, as a list of segments. -/
abbrev Path := List String

/-- Model of the JS method s.endsWith(t). -/
def jsEndsWith (s t : String) : Bool := t.data.isSuffixOf s.data

/-- Model of the JS method s.startsWith(t). -/
def jsStartsWith (s t : String) : Bool := t.data.isPrefixOf s.data

/-- Model of dropping the last n characters of s (used for the JS
regex replace of a trailing "-pro"). -/
def jsDropRight (s : String) (n : Nat) : String := String.mk (s.data.take (s.data.length - n))

/-- Model of the JS method s.split(c) for a one-character separator. -/
def jsSplit (s : String) (c : Char) : List String := (s.data.splitOn c).map String.mk

/-- Model of the JS method s.toUpperCase() (ASCII letters). -/
def jsToUpperCase (s : String) : String := String.mk (s.data.map Char.toUpper)

/-- Model of the JS method s.trim(). -/
def jsTrim (s : String) : String :=
  String.mk (((s.data.dropWhile Char.isWhitespace).reverse.dropWhile Char.isWhitespace).reverse)

/-- Nonempty prefixes of a path, shortest first (the path itself included). -/
def pathPrefixes : Path → List Path
  | [] => []
  | x :: rest => [x] :: (pathPrefixes rest).map (fun q => x :: q)

/-- Filesystem model: the set of existing directories and the existing
regular files with their contents. -/
structure FS where
  dirs : List Path
  files : List (Path × String)
deriving Repr, DecidableEq

/-- Lookup of a file path in the file-entry list (first match wins). -/
def lookupFile : List (Path × String) → Path → Option String
  | [], _ => none
  | e :: rest, q => if e.1 = q then some e.2 else lookupFile rest q

/-- Remove all entries for a file path. -/
def removeFileEntries : List (Path × String) → Path → List (Path × String)
  | [], _ => []
  | e :: rest, q => if e.1 = q then removeFileEntries rest q else e :: removeFileEntries rest q

/-- True when the path is an existing directory. -/
def FS.isDir (fs : FS) (q : Path) : Bool := decide (q ∈ fs.dirs)

/-- Content of the regular file at a path, when one exists. -/
def FS.fileContent (fs : FS) (q : Path) : Option String := lookupFile fs.files q

/-- True when the path is an existing regular file. -/
def FS.isFile (fs : FS) (q : Path) : Bool := (fs.fileContent q).isSome

/-- Model of fs.existsSync: the path is a directory or a file. -/
def FS.existsSync (fs : FS) (q : Path) : Bool := fs.isDir q || fs.isFile q

/-- Model of fs.mkdirSync with recursive:true — creates the directory and all
its missing ancestors. -/
def FS.mkdirSync (fs : FS) (q : Path) : FS :=
  { fs with dirs := fs.dirs ++ (pathPrefixes q).filter (fun r => decide (r ∉ fs.dirs)) }

/-- Model of fs.writeFileSync — creates or overwrites the file. -/
def FS.writeFileSync (fs : FS) (q : Path) (content : String) : FS :=
  { fs with files := (q, content) :: removeFileEntries fs.files q }

/-- Model of fs.rmSync with recursive:true, force:true — removes the path and
everything below it, silently succeeding when nothing is there. -/
def FS.rmSync (fs : FS) (r : Path) : FS :=
  { dirs := fs.dirs.filter (fun q => decide (¬ r <+: q)),
    files := fs.files.filter (fun e => decide (¬ r <+: e.1)) }

/-- Names of the immediate child directories of a path: the model of
fs.readdirSync followed by the statSync(..).isDirectory() filter. -/
def FS.childDirNames (fs : FS) (r : Path) : List String :=
  (fs.dirs.filterMap (fun q =>
    if q.length = r.length + 1 ∧ r <+: q then q.getLast? else none)).dedup

/-- Well-formedness of a filesystem: every nonempty prefix of an existing
directory is a directory, and every proper nonempty prefix of an existing
file path is a directory.  Every filesystem produced by a real OS satisfies
this. -/
def FS.wfb (fs : FS) : Bool :=
  (fs.dirs.all (fun p => (pathPrefixes p).all (fun q => decide (q ∈ fs.dirs)))) &&
  (fs.files.all (fun e => (pathPrefixes e.1.dropLast).all (fun q => decide (q ∈ fs.dirs))))

/-- HTTP response as seen by a https.get / https.request callback: either a
response with status code, accumulated body and optional Location header, or
a connection error (the error event). -/
inductive HttpResp where
  | resp (status : Nat) (body : String) (location : Option String)
  | netError
deriving Repr, DecidableEq

/-- True when the response carries status 404. -/
def HttpResp.is404 : HttpResp → Bool
  | HttpResp.resp s _ _ => s == 404
  | HttpResp.netError => false

/-- True when the response carries status 301 or 302. -/
def HttpResp.isRedirect : HttpResp → Bool
  | HttpResp.resp s _ _ => s == 302 || s == 301
  | HttpResp.netError => false

/-- Location header of a redirect response (empty when absent). -/
def HttpResp.redirectLoc : HttpResp → String
  | HttpResp.resp _ _ l => l.getD ("")
  | HttpResp.netError => ""

/-- Event trace entry: console output of each kind, a subprocess invocation
(execSync), a tool-presence probe (the execSync of a which command inside
commandExists), or an outgoing HTTPS GET of the skill installer. -/
inductive Ev where
  | log (msg : String)
  | success (msg : String)
  | warn (msg : String)
  | err (msg : String)
  | exec (cmd : String)
  | probe (cmd : String)
  | fetch (url : String)
deriving Repr, DecidableEq

/-- Process state threaded through the handlers: the filesystem, the ordered
event trace, and the exit code (0 unless process.exit was called). -/
structure Proc where
  fs : FS
  out : List Ev
  exitCode : Nat
deriving Repr, DecidableEq

/-- Append an event to the trace. -/
def Proc.emit (p : Proc) (e : Ev) : Proc := { p with out := p.out ++ [e] }

/-- Model of console.log. -/
def Proc.log (p : Proc) (m : String) : Proc := p.emit (Ev.log m)

/-- Model of the success helper (green check mark line). -/
def Proc.success (p : Proc) (m : String) : Proc := p.emit (Ev.success m)

/-- Model of the warn helper (yellow exclamation line). -/
def Proc.warn (p : Proc) (m : String) : Proc := p.emit (Ev.warn m)

/-- Model of the error helper (red cross line). -/
def Proc.error (p : Proc) (m : String) : Proc := p.emit (Ev.err m)

/-- Repository constant SKILLS_REPO. -/
def SKILLS_REPO : String := "skunkceo/openclaw-skills"

/-- Repository constant SKILLS_BRANCH. -/
def SKILLS_BRANCH : String := "main"

/-- OPENCLAW_DIR = path.join(process.env.HOME, ".openclaw", "skills"). -/
def OPENCLAW_DIR : Path := ["HOME", ".openclaw", "skills"]

/-- Rendering of a path for user messages. -/
def pathStr (p : Path) : String := String.intercalate ("/") p

/-- Raw-file URL template used by the skill installer. -/
def rawUrl (name file : String) : String :=
  "https://raw.githubusercontent.com/" ++ SKILLS_REPO ++ "/" ++ SKILLS_BRANCH ++
    "/skills/" ++ name ++ "/" ++ file

/-- Model of fetchFile(url) applied to the response the oracle returns for
that URL: 404 resolves null, any other non-200 status rejects, 200 resolves
the body. -/
def fetchFile (r : HttpResp) : Except String (Option String) :=
  match r with
  | HttpResp.netError => Except.error ("network error")
  | HttpResp.resp status body _ =>
      if status = 404 then Except.ok none
      else if status ≠ 200 then Except.error ("HTTP " ++ toString status)
      else Except.ok (some body)

/-- Content that the fetch loop of installSkill actually writes for one file:
some body exactly when the fetch resolved a truthy (non-null, nonempty)
string; rejected fetches are caught and 404 resolves null, so both yield
none. -/
def fetchedContent (r : HttpResp) : Option String :=
  match fetchFile r with
  | Except.ok (some content) => if content ≠ "" then some content else none
  | Except.ok none => none
  | Except.error _ => none

/-- The for-loop of installSkill over the well-known file names: each
iteration issues a GET (recorded as a fetch event), writes the body when it
is truthy, and sets the installed flag when the written file is SKILL.md.
Rejected fetches are caught and skipped. -/
def installLoop (net : String → HttpResp) (name : String) (skillDir : Path) :
    List String → Bool → Proc → Proc × Bool
  | [], installed, p => (p, installed)
  | file :: rest, installed, p =>
      let url := rawUrl name file
      let p := p.emit (Ev.fetch url)
      match fetchFile (net url) with
      | Except.ok (some content) =>
          if content ≠ "" then
            installLoop net name skillDir rest (installed || (file == "SKILL.md"))
              { p with fs := p.fs.writeFileSync (skillDir ++ [file]) content }
          else installLoop net name skillDir rest installed p
      | Except.ok none => installLoop net name skillDir rest installed p
      | Except.error _ => installLoop net name skillDir rest installed p

/-- Model of installSkill(name) from the main CLI script: refuses an empty
name, creates the skills root when missing, aborts when the skill directory
already exists, otherwise creates it, runs the fetch loop and on failure
removes the whole directory again. -/
def installSkill (net : String → HttpResp) (name : String) (p : Proc) : Proc :=
  if name = "" then
    (p.log ("Usage: skunk install skill <skill-name>")).log
      ("Run \"skunk available\" to see available skills")
  else
    let p := p.log ("Installing skill: " ++ name ++ "...")
    let p := if p.fs.existsSync OPENCLAW_DIR then p
             else { p with fs := p.fs.mkdirSync OPENCLAW_DIR }
    let skillDir := OPENCLAW_DIR ++ [name]
    if p.fs.existsSync skillDir then
      p.log ("Skill " ++ name ++ " is already installed. Remove it first with: skunk remove skill " ++ name)
    else
      let p := { p with fs := p.fs.mkdirSync skillDir }
      let r := installLoop net name skillDir ["SKILL.md", "config.json", "README.md"] false p
      if r.2 then
        ((r.1.success ("Installed skill \"" ++ name ++ "\" to " ++ pathStr skillDir)).log
          ("Restart your AI assistant to load the new skill."))
      else
        ({ r.1 with fs := r.1.fs.rmSync skillDir }).error
          ("Skill \"" ++ name ++ "\" not found. Run \"skunk available\" to see available skills.")

/-- Outcome record of installSkill of the setup wizard. -/
inductive SkillStatus where
  | exists_
  | installed
  | failed
deriving Repr, DecidableEq

/-- The fetch loop of installSkill of the setup wizard: same fetching and
truthiness check as the main installer, but no installed flag and no console
output (the wizard prints around it). -/
def fetchLoopFS (net : String → HttpResp) (name : String) (skillDir : Path) :
    List String → FS → FS
  | [], fs => fs
  | file :: rest, fs =>
      match fetchFile (net (rawUrl name file)) with
      | Except.ok (some content) =>
          if content ≠ "" then
            fetchLoopFS net name skillDir rest (fs.writeFileSync (skillDir ++ [file]) content)
          else fetchLoopFS net name skillDir rest fs
      | Except.ok none => fetchLoopFS net name skillDir rest fs
      | Except.error _ => fetchLoopFS net name skillDir rest fs

/-- Model of installSkill(skillName) from bin/setup.js: returns a status
record instead of printing; fetches SKILL.md and config.json, declares
success when SKILL.md exists afterwards, and removes the directory
otherwise. -/
def setupInstallSkill (net : String → HttpResp) (skillName : String) (fs : FS) :
    FS × SkillStatus :=
  let skillDir := OPENCLAW_DIR ++ [skillName]
  if fs.existsSync skillDir then (fs, SkillStatus.exists_)
  else
    let fs := fs.mkdirSync skillDir
    let fs := fetchLoopFS net skillName skillDir ["SKILL.md", "config.json"] fs
    if fs.isFile (skillDir ++ ["SKILL.md"]) then (fs, SkillStatus.installed)
    else (fs.rmSync skillDir, SkillStatus.failed)

/-- Registry entry of the static plugin registry. -/
structure PluginInfo where
  slug : String
  proSlug : String
  name : String
deriving Repr, DecidableEq

/-- PLUGIN_REGISTRY from the main CLI script. -/
def PLUGIN_REGISTRY : List (String × PluginInfo) :=
  [("skunkcrm", PluginInfo.mk ("skunkcrm") ("skunkcrm-pro") ("SkunkCRM")),
   ("skunkforms", PluginInfo.mk ("skunkforms") ("skunkforms-pro") ("SkunkForms")),
   ("skunkpages", PluginInfo.mk ("skunkpages") ("skunkpages-pro") ("SkunkPages"))]

/-- Lookup PLUGIN_REGISTRY[key]. -/
def registryLookup (key : String) : Option PluginInfo :=
  (PLUGIN_REGISTRY.find? (fun e => e.1 == key)).map (fun e => e.2)

/-- DOWNLOAD_BASE constant. -/
def DOWNLOAD_BASE : String := "https://skunkglobal.com/api/plugin-updates/download"

/-- Base name of a plugin request: name.replace(-pro suffix, empty). -/
def stripProName (name : String) : String :=
  if jsEndsWith name ("-pro") then jsDropRight name 4 else name

/-- JS truthiness of a nullable string (null and the empty string are
falsy). -/
def truthyOptStr : Option String → Bool
  | none => false
  | some s => s ≠ ""

/-- License flag parsing of installPlugin: the last --license= argument wins,
with the value being the text between the first and second equals sign. -/
def parseLicense (extraArgs : List String) : Option String :=
  extraArgs.foldl (fun license arg =>
    if jsStartsWith arg ("--license=") then some ((jsSplit arg '=').getD 1 ("")) else license)
    none

/-- Oracle bundle for one process run: the HTTPS responses by URL, the
tool-presence answers of the which probes, and the exit status of each
subprocess command line. -/
structure World where
  net : String → HttpResp
  cmdExists : String → Bool
  execOk : String → Bool

/-- Model of commandExists(cmd): runs a which subprocess (recorded as a probe
event) and reports whether it succeeded. -/
def commandExistsP (w : World) (cmd : String) (p : Proc) : Proc × Bool :=
  (p.emit (Ev.probe cmd), w.cmdExists cmd)

/-- Two console lines that listPlugins prints for one registry entry. -/
def pluginFreeLine (e : String × PluginInfo) : Ev :=
  Ev.log ("  " ++ e.1 ++ " (" ++ e.2.name ++ " Free)")

/-- Pro line of listPlugins for one registry entry. -/
def pluginProLine (e : String × PluginInfo) : Ev :=
  Ev.log ("  " ++ e.1 ++ "-pro (" ++ e.2.name ++ " Pro)")

/-- Model of listPlugins(): header, two lines per registry entry, footer. -/
def listPlugins (p : Proc) : Proc :=
  let p := p.log ("Available WordPress plugins:")
  let p := PLUGIN_REGISTRY.foldl (fun p e => (p.emit (pluginFreeLine e)).emit (pluginProLine e)) p
  p.log ("Install with: skunk install plugin <name>  Pro versions: skunk install plugin <name>-pro --license=XXXX")

/-- Model of installPlugin(name, extraArgs) from the main CLI script. -/
def installPlugin (w : World) (name : String) (extraArgs : List String) (p : Proc) : Proc :=
  let pluginKey := stripProName name
  let isPro := jsEndsWith name ("-pro")
  match registryLookup pluginKey with
  | none =>
      let p := p.error ("Unknown plugin: " ++ name)
      let p := p.log ("Available plugins:")
      listPlugins p
  | some plugin =>
      let license := parseLicense extraArgs
      let pb1 := commandExistsP w ("wp") p
      let pb2 := commandExistsP w ("studio") pb1.1
      let p := pb2.1
      let hasWpCli := pb1.2
      let hasStudio := pb2.2
      if !hasWpCli && !hasStudio then
        (p.error ("No WordPress CLI found.")).log
          ("To install WordPress plugins, you need either: WP-CLI https://wp-cli.org/ or WordPress Studio https://developer.wordpress.org/studio/ (macOS: brew install --cask wordpress-studio)")
      else
        let slug := if isPro then plugin.proSlug else plugin.slug
        let downloadUrl := DOWNLOAD_BASE ++ "?slug=" ++ slug ++
          (if isPro && truthyOptStr license then ("&license_key=" ++ license.getD ("")) else (""))
        let displayName := if isPro then plugin.name ++ " Pro" else plugin.name
        let p := p.log ("Installing " ++ displayName ++ "...")
        if isPro && !truthyOptStr license then
          ((p.warn ("Pro version requires a license key.")).log
            ("  skunk install plugin " ++ name ++ " --license=YOUR_LICENSE_KEY")).log
            ("Get a license at: https://skunkglobal.com/pricing")
        else
          let cmd := (if hasStudio then ("studio wp plugin install \"") else ("wp plugin install \"")) ++
            downloadUrl ++ "\" --activate"
          let p := p.log ("Running: " ++ cmd)
          let p := p.emit (Ev.exec cmd)
          if w.execOk cmd then
            ((p.success ("Installed " ++ displayName)).log
              ("Tip: Install the AI skill to let your assistant manage " ++ plugin.name ++ ":")).log
              ("  skunk install skill " ++ pluginKey)
          else
            (p.error ("Failed to install " ++ displayName)).log
              ("If using WordPress Studio, make sure you have a site selected.")

/-- Command line of the npm self-update step. -/
def UPDATE_CMD : String := "npm update -g @skunkceo/cli"

/-- Body of the per-skill refresh loop of handleUpdate: remove the skill
directory recursively and print the per-skill line.  No fetch is issued
anywhere in this loop. -/
def updateFold (skills : List String) (p : Proc) : Proc :=
  skills.foldl (fun p skill =>
    ({ p with fs := p.fs.rmSync (OPENCLAW_DIR ++ [skill]) }).log
      ("  Updating " ++ skill ++ "...")) p

/-- Model of handleUpdate(): npm self-update, then — when the skills root
exists — removal of every immediate child directory of the skills root.  The
source comments claim a re-fetch but contains none; the final line prints the
undefined return value of the success helper. -/
def handleUpdate (w : World) (p : Proc) : Proc :=
  let p := p.log ("Updating Skunk CLI...")
  let p := p.emit (Ev.exec UPDATE_CMD)
  if !(w.execOk UPDATE_CMD) then
    (p.error ("Failed to update CLI")).log ("Try: sudo npm update -g @skunkceo/cli")
  else
    let p := p.success ("Skunk CLI updated")
    let p :=
      if p.fs.existsSync OPENCLAW_DIR then
        let skills := p.fs.childDirNames OPENCLAW_DIR
        if skills.isEmpty then p
        else
          let p := p.log ("Refreshing installed skills...")
          let p := updateFold skills p
          p.log ("Run \"skunk list\" to verify skills.")
      else p
    (p.success ("Update complete")).log ("undefined")

/-- Help text printed by showHelp() of the main CLI script (color escapes
omitted). -/
def HELP_TEXT : String :=
  "Skunk CLI - AI-Powered WordPress Toolkit. Usage: skunk setup | skunk install skill <name> | skunk install plugin <name> | skunk remove skill <name> | skunk list | skunk available | skunk plugins | skunk status | skunk update | skunk help. Skills teach your AI assistant how to use Skunk products. Plugins are the actual WordPress plugins that run on your site. Docs: https://skunkglobal.com/guides/openclaw-wordpress"

/-- Model of showHelp(). -/
def showHelp (p : Proc) : Proc := p.log HELP_TEXT

/-- Model of the JS expression t || d selecting the first CLI token: an
absent token (undefined) and the empty-string token are both falsy, so both
select the default. -/
def jsOrDefault (t : Option String) (d : String) : String :=
  match t with
  | none => d
  | some s => if s = "" then d else s

/-- Dispatch decision of the command switch of the main CLI script. -/
inductive Routed where
  | install (rest : List String)
  | remove (rest : List String)
  | list
  | available
  | plugins
  | status
  | update
  | setup
  | help
  | unknown (cmd : String)
deriving Repr, DecidableEq

/-- First tokens that select a case of the command switch. -/
def commandNames : List String :=
  ["install", "remove", "list", "available", "plugins", "status", "update", "setup",
   "help", "--help", "-h"]

/-- Model of the command switch: the token args[0] || help selects the
handler — an absent or empty first token is falsy and selects help — and any
other token falls into the default case. -/
def routeCommand (argv : List String) : Routed :=
  let command := jsOrDefault argv.head? ("help")
  if command = "install" then Routed.install (argv.drop 1)
  else if command = "remove" then Routed.remove (argv.drop 1)
  else if command = "list" then Routed.list
  else if command = "available" then Routed.available
  else if command = "plugins" then Routed.plugins
  else if command = "status" then Routed.status
  else if command = "update" then Routed.update
  else if command = "setup" then Routed.setup
  else if command = "help" ∨ command = "--help" ∨ command = "-h" then Routed.help
  else Routed.unknown command

/-- Default case of the command switch: print the unknown-command line and
the help text.  The process then ends without process.exit, so the exit code
is unchanged (0 for a fresh process). -/
def dispatchUnknown (cmd : String) (p : Proc) : Proc :=
  showHelp (p.log ("Unknown command: " ++ cmd))

/-- Help text of the earlier skills-only CLI revision. -/
def HELP1_TEXT : String :=
  "Skunk CLI - Install skills for OpenClaw. Usage: skunk install <skill> | skunk remove <skill> | skunk list | skunk available | skunk help. Skills: https://github.com/skunkceo/openclaw-skills"

/-- Own keys of the commands object of the earlier skills-only revision. -/
def commandNames1 : List String := ["install", "list", "available", "remove", "help"]

/-- Properties that the commands-object lookup of the earlier revision also
reaches through the JS prototype chain: the Object.prototype properties, all
of which are truthy values.  The Bool records whether invoking the property
value as commands[command](skillName) throws an uncaught TypeError: true for
the accessor value of proto-dunder (Object.prototype itself, not callable)
and for the define-getter and define-setter helpers (their required function
argument is undefined here); the remaining inherited methods return without
printing anything. -/
def objectProtoProps : List (String × Bool) :=
  [("constructor", false), ("hasOwnProperty", false), ("isPrototypeOf", false),
   ("propertyIsEnumerable", false), ("toLocaleString", false), ("toString", false),
   ("valueOf", false), ("__defineGetter__", true), ("__defineSetter__", true),
   ("__lookupGetter__", false), ("__lookupSetter__", false), ("__proto__", true)]

/-- Dispatch decision of the commands-object lookup of the earlier revision:
an own key, a truthy prototype-chain hit (whose invocation may throw), or a
genuinely absent property. -/
inductive Routed1 where
  | dispatch (cmd : String) (arg : Option String)
  | inherited (cmd : String) (throws : Bool)
  | unknown (cmd : String)
deriving Repr, DecidableEq

/-- Model of the dispatch of the earlier revision: the token
args[0] || help (absent and empty tokens are falsy) is looked up on the
commands object; an own key calls that handler with args[1], a property
inherited from Object.prototype is truthy and is invoked instead of
reaching the else branch, and only a token that is neither prints the
unknown-command line and the help text. -/
def routeCommand1 (argv : List String) : Routed1 :=
  let command := jsOrDefault argv.head? ("help")
  if command ∈ commandNames1 then Routed1.dispatch command (argv.get? 1)
  else
    match (objectProtoProps.find? (fun e => e.1 == command)).map (fun e => e.2) with
    | some throws => Routed1.inherited command throws
    | none => Routed1.unknown command

/-- Else branch of the dispatch of the earlier revision. -/
def dispatchUnknown1 (cmd : String) (p : Proc) : Proc :=
  (p.log ("Unknown command: " ++ cmd)).log HELP1_TEXT

/-- Process outcome when the lookup of the earlier revision hits an
inherited Object.prototype property: the truthy value is invoked with the
CLI argument, nothing is printed (in particular no usage text), and when the
invocation throws the TypeError is uncaught and the process exits 1. -/
def dispatchInherited1 (throws : Bool) (p : Proc) : Proc :=
  if throws then { p with exitCode := 1 } else p

/-- Cache directory of the plugin download of the setup wizard:
path.join(HOME, ".skunk", "plugins"). -/
def CACHE_DIR : Path := ["HOME", ".skunk", "plugins"]

/-- Result record of installPlugin of the setup wizard. -/
inductive PluginDownload where
  | installed
  | cached (location : Path)
  | failed (error : Option String)
deriving Repr, DecidableEq

/-- Download-and-cache branch of installPlugin of the setup wizard: create the
cache directory and the (initially empty) zip file, GET the URL, follow a
301/302 redirect by issuing exactly one further GET to the Location header
and piping that second response to the file whatever its status, fail on any
other non-200 status.  The returned list records the URLs GETted, in
order. -/
def downloadToCache (w : World) (url : String) (pluginSlug : String) (p : Proc) :
    Proc × PluginDownload × List String :=
  let fs := (p.fs.mkdirSync CACHE_DIR)
  let zipPath := CACHE_DIR ++ [pluginSlug ++ ".zip"]
  let p := { p with fs := fs }
  let p := p.log ("   Downloading " ++ pluginSlug ++ "...")
  let p := { p with fs := p.fs.writeFileSync zipPath ("") }
  match w.net url with
  | HttpResp.netError => (p, PluginDownload.failed none, [url])
  | HttpResp.resp status body location =>
      if status = 302 ∨ status = 301 then
        let loc := location.getD ("")
        match w.net loc with
        | HttpResp.netError => (p, PluginDownload.failed none, [url, loc])
        | HttpResp.resp _ body2 _ =>
            ({ p with fs := p.fs.writeFileSync zipPath body2 },
             PluginDownload.cached zipPath, [url, loc])
      else if status ≠ 200 then
        (p, PluginDownload.failed (some ("HTTP " ++ toString status)), [url])
      else
        ({ p with fs := p.fs.writeFileSync zipPath body },
         PluginDownload.cached zipPath, [url])

/-- URL of a plugin release archive used by the setup wizard. -/
def zipUrl (repo pluginSlug : String) : String :=
  "https://github.com/" ++ repo ++ "/releases/latest/download/" ++ pluginSlug ++ ".zip"

/-- Model of installPlugin(repo, pluginSlug, wpPath) from bin/setup.js: when
a WordPress path was given and wp exists, try a direct wp-cli install and
fall through to the cache download when it fails; otherwise download into
the cache. -/
def setupInstallPlugin (w : World) (repo pluginSlug : String) (wpPath : Option String)
    (p : Proc) : Proc × PluginDownload × List String :=
  let url := zipUrl repo pluginSlug
  if truthyOptStr wpPath && w.cmdExists ("wp") then
    let p := p.log ("   Installing " ++ pluginSlug ++ " to WordPress...")
    let cmd := "wp plugin install \"" ++ url ++ "\" --path=\"" ++ wpPath.getD ("") ++ "\""
    let p := p.emit (Ev.exec cmd)
    if w.execOk cmd then (p, PluginDownload.installed, [])
    else downloadToCache w url pluginSlug p
  else downloadToCache w url pluginSlug p

/-- JSON value as produced by JSON.parse. -/
inductive Json where
  | null
  | bool (b : Bool)
  | num (n : Int)
  | str (s : String)
  | arr (elems : List Json)
  | obj (fields : List (String × Json))

/-- Property access j.k: a key lookup on an object, undefined (none)
otherwise. -/
def Json.get : Json → String → Option Json
  | Json.obj fields, k => (fields.find? (fun e => e.1 == k)).map (fun e => e.2)
  | _, _ => none

/-- JS truthiness of a possibly-undefined JSON value. -/
def jsTruthy : Option Json → Bool
  | none => false
  | some Json.null => false
  | some (Json.bool b) => b
  | some (Json.num n) => n ≠ 0
  | some (Json.str s) => s ≠ ""
  | some (Json.arr _) => true
  | some (Json.obj _) => true

/-- Value of the activationsLeft field: a number when both operands are
numbers, NaN otherwise (JS subtraction on non-numbers), or the literal
string unlimited when max_sites is falsy. -/
inductive ActLeft where
  | num (n : Int)
  | nan
  | unlimited

/-- JS subtraction as used for max_sites - (active_sites or 0). -/
def jsSub : Json → Json → ActLeft
  | Json.num x, Json.num y => ActLeft.num (x - y)
  | _, _ => ActLeft.nan

/-- Result record resolved by validateLicense. -/
structure LicenseResult where
  valid : Bool
  error : Option Json
  activationsLeft : Option ActLeft
  productsCovered : Option Json

/-- One run of validateLicense: the body of the single POST request it
issues, and the result it resolves. -/
structure ValidateRun where
  requestBody : Json
  result : LicenseResult

/-- Wire-level outcome of the single HTTPS request of validateLicense:
either the accumulated response body, or a connection error. -/
inductive WireResp where
  | body (data : String)
  | netError
deriving Repr, DecidableEq

/-- Model of validateLicense(licenseKey, product) from bin/setup.js applied
to the outcome of its single request.  JSON.parse is passed explicitly as
the parse collaborator; a parse failure is caught and resolved as an invalid
result, a connection error likewise, and the function never throws. -/
def validateLicense (parse : String → Option Json) (licenseKey product : String)
    (resp : WireResp) : ValidateRun :=
  let requestBody := Json.obj
    [("license_key", Json.str (jsTrim (jsToUpperCase licenseKey))),
     ("site_url", Json.str ("cli-setup"))]
  let result :=
    match resp with
    | WireResp.netError =>
        LicenseResult.mk false (some (Json.str ("Could not connect to license server"))) none none
    | WireResp.body data =>
        match parse data with
        | none =>
            LicenseResult.mk false (some (Json.str ("Failed to validate license"))) none none
        | some json =>
            if jsTruthy (json.get ("success")) && jsTruthy (json.get ("data")) &&
               jsTruthy ((json.get ("data")).bind (fun d => d.get ("valid"))) then
              let d := (json.get ("data")).getD Json.null
              LicenseResult.mk true none
                (some (if jsTruthy (d.get ("max_sites")) then
                  jsSub ((d.get ("max_sites")).getD Json.null)
                    (if jsTruthy (d.get ("active_sites")) then (d.get ("active_sites")).getD Json.null
                     else Json.num 0)
                 else ActLeft.unlimited))
                (some (if jsTruthy (d.get ("products_covered")) then
                  (d.get ("products_covered")).getD Json.null
                 else Json.arr [Json.str product]))
            else
              LicenseResult.mk false
                (some (if jsTruthy (json.get ("message")) then (json.get ("message")).getD Json.null
                 else Json.str ("Invalid license"))) none none
  ValidateRun.mk requestBody result

/-- Response oracle of the end-to-end scenario of the spec: SKILL.md of the
demo skill answers 200 with body X, every other URL answers 404. -/
def c1net : String → HttpResp := fun url =>
  if url = rawUrl ("demo") ("SKILL.md") then HttpResp.resp 200 ("X") none
  else HttpResp.resp 404 ("") none

/-- Response oracle with a 201 answer for SKILL.md of the demo skill (a 2xx
status that is not 200) and 404 for everything else. -/
def c4net : String → HttpResp := fun url =>
  if url = rawUrl ("demo") ("SKILL.md") then HttpResp.resp 201 ("B") none
  else HttpResp.resp 404 ("") none

/-- Filesystem with the demo skill directory already present. -/
def demoFS : FS :=
  FS.mk [["HOME"], ["HOME", ".openclaw"], ["HOME", ".openclaw", "skills"],
         ["HOME", ".openclaw", "skills", "demo"]] []

/-- Oracle bundle answering netError to every request, with only wp present
and every subprocess succeeding. -/
def wpWorld : World :=
  World.mk (fun _ => HttpResp.netError) (fun c => c == "wp") (fun _ => true)

section Lemmas

variable {fs : FS} {p q r : Path} {c : String}

theorem Proc.emit_fs (pr : Proc) (e : Ev) : (pr.emit e).fs = pr.fs := rfl

theorem Proc.emit_out (pr : Proc) (e : Ev) : (pr.emit e).out = pr.out ++ [e] := rfl

theorem Proc.emit_exitCode (pr : Proc) (e : Ev) : (pr.emit e).exitCode = pr.exitCode := rfl

theorem lookupFile_some_mem {l : List (Path × String)} {q : Path} {c : String}
    (h : lookupFile l q = some c) : (q, c) ∈ l := by
  induction l with
  | nil => simp [lookupFile] at h
  | cons e rest ih =>
      obtain ⟨k, v⟩ := e
      by_cases he : k = q
      · subst he
        simp only [lookupFile, if_true, eq_self_iff_true, if_pos, Option.some.injEq] at h
        have h2 : v = c := by simpa using h
        subst h2
        exact List.mem_cons_self _ _
      · simp only [lookupFile, if_neg he] at h
        exact List.mem_cons_of_mem _ (ih h)

theorem lookupFile_removeFileEntries (l : List (Path × String)) (r q : Path) :
    lookupFile (removeFileEntries l r) q = if q = r then none else lookupFile l q := by
  induction l with
  | nil => simp [removeFileEntries, lookupFile]
  | cons e rest ih =>
      obtain ⟨k, v⟩ := e
      by_cases hk : k = r
      · subst hk
        by_cases hq : q = k
        · subst hq
          simp [removeFileEntries, ih]
        · have hk2 : ¬ (k = q) := fun h2 => hq h2.symm
          simp [removeFileEntries, ih, hq, lookupFile, hk2]
      · by_cases hq2 : k = q
        · subst hq2
          have hq3 : ¬ (k = r) := hk
          simp [removeFileEntries, hk, lookupFile, hq3]
        · simp [removeFileEntries, hk, lookupFile, hq2, ih]

theorem lookupFile_filterKey_some {l : List (Path × String)} {q : Path} {c : String}
    (P : Path → Bool) (h : lookupFile (l.filter (fun e => P e.1)) q = some c) :
    lookupFile l q = some c ∧ P q = true := by
  induction l with
  | nil => simp [lookupFile] at h
  | cons e rest ih =>
      obtain ⟨k, v⟩ := e
      by_cases hp : P k = true
      · by_cases he : k = q
        · subst he
          simp only [List.filter_cons, hp, if_pos, lookupFile, Option.some.injEq] at h
          have h2 : v = c := by simpa using h
          refine ⟨?_, hp⟩
          simp [lookupFile, h2]
        · simp only [List.filter_cons, hp, if_pos, lookupFile, if_neg he] at h
          simp only [lookupFile, if_neg he]
          exact ih h
      · by_cases he : k = q
        · subst he
          simp only [List.filter_cons, hp, if_neg, Bool.false_eq_true, if_false] at h
          exact absurd (ih h).2 hp
        · simp only [List.filter_cons, hp, Bool.false_eq_true, if_false] at h
          simp only [lookupFile, if_neg he]
          exact ih h

theorem FS.writeFileSync_fileContent (fs : FS) (r : Path) (c : String) (q : Path) :
    (fs.writeFileSync r c).fileContent q = if q = r then some c else fs.fileContent q := by
  by_cases h : q = r
  · subst h
    simp [FS.writeFileSync, FS.fileContent, lookupFile]
  · have h2 : ¬ (r = q) := fun h3 => h h3.symm
    simp [FS.writeFileSync, FS.fileContent, lookupFile, h, h2,
      lookupFile_removeFileEntries]

theorem FS.writeFileSync_dirs (fs : FS) (r : Path) (c : String) :
    (fs.writeFileSync r c).dirs = fs.dirs := rfl

theorem FS.mkdirSync_files (fs : FS) (q : Path) : (fs.mkdirSync q).files = fs.files := rfl

theorem FS.mem_mkdirSync_dirs (fs : FS) (q r : Path) :
    r ∈ (fs.mkdirSync q).dirs ↔ r ∈ fs.dirs ∨ r ∈ pathPrefixes q := by
  simp only [FS.mkdirSync, List.mem_append, List.mem_filter, decide_eq_true_iff]
  constructor
  · rintro (h | ⟨h1, _⟩)
    · exact Or.inl h
    · exact Or.inr h1
  · intro h
    by_cases hr : r ∈ fs.dirs
    · exact Or.inl hr
    · rcases h with h | h
      · exact absurd h hr
      · exact Or.inr ⟨h, hr⟩

theorem FS.mem_rmSync_dirs (fs : FS) (r q : Path) :
    q ∈ (fs.rmSync r).dirs ↔ q ∈ fs.dirs ∧ ¬ r <+: q := by
  simp [FS.rmSync, List.mem_filter, decide_eq_true_iff]

theorem FS.rmSync_fileContent_some (fs : FS) (r q : Path) (c : String)
    (h : (fs.rmSync r).fileContent q = some c) :
    fs.fileContent q = some c ∧ ¬ r <+: q := by
  have := lookupFile_filterKey_some (fun k => decide (¬ r <+: k)) h
  exact ⟨this.1, by simpa using this.2⟩

theorem FS.rmSync_existsSync (fs : FS) (r q : Path) (h : r <+: q) :
    (fs.rmSync r).existsSync q = false := by
  have hdir : (fs.rmSync r).isDir q = false := by
    simp only [FS.isDir, decide_eq_false_iff_not]
    intro hq
    exact ((FS.mem_rmSync_dirs fs r q).1 hq).2 h
  have hfile : (fs.rmSync r).isFile q = false := by
    simp only [FS.isFile]
    cases hc : (fs.rmSync r).fileContent q with
    | none => rfl
    | some c => exact absurd h (FS.rmSync_fileContent_some fs r q c hc).2
  simp [FS.existsSync, hdir, hfile]

theorem mem_pathPrefixes {q p : Path} : q ∈ pathPrefixes p ↔ q ≠ [] ∧ q <+: p := by
  induction p generalizing q with
  | nil =>
      simp only [pathPrefixes, List.not_mem_nil, false_iff, not_and, List.prefix_nil]
      intro h1 h2
      exact h1 h2
  | cons x rest ih =>
      cases q with
      | nil =>
          simp only [pathPrefixes, List.mem_cons, List.mem_map]
          constructor
          · rintro (h | ⟨a, _, h⟩) <;> simp at h
          · rintro ⟨h, _⟩
            exact absurd rfl h
      | cons y ys =>
          simp only [pathPrefixes, List.mem_cons, List.mem_map, ne_eq,
            List.cons_prefix_cons, reduceCtorEq, not_false_iff, true_and]
          constructor
          · rintro (h | ⟨a, ha, h⟩)
            · simp only [List.cons.injEq] at h
              obtain ⟨rfl, rfl⟩ := h
              exact ⟨rfl, by simp⟩
            · simp only [List.cons.injEq] at h
              obtain ⟨rfl, rfl⟩ := h
              exact ⟨rfl, (ih.1 ha).2⟩
          · rintro ⟨h1, h2⟩
            subst h1
            by_cases hys : ys = []
            · subst hys
              exact Or.inl rfl
            · exact Or.inr ⟨ys, ih.2 ⟨hys, h2⟩, rfl⟩

theorem FS.wfb_dirs (fs : FS) (h : fs.wfb = true) :
    ∀ p ∈ fs.dirs, ∀ q ∈ pathPrefixes p, q ∈ fs.dirs := by
  simp only [FS.wfb, Bool.and_eq_true, List.all_eq_true, decide_eq_true_iff] at h
  exact h.1

theorem FS.wfb_files (fs : FS) (h : fs.wfb = true) :
    ∀ e ∈ fs.files, ∀ q ∈ pathPrefixes e.1.dropLast, q ∈ fs.dirs := by
  simp only [FS.wfb, Bool.and_eq_true, List.all_eq_true, decide_eq_true_iff] at h
  exact h.2

theorem mem_childDirNames (fs : FS) (r : Path) (n : String) :
    n ∈ fs.childDirNames r ↔ r ++ [n] ∈ fs.dirs := by
  simp only [FS.childDirNames, List.mem_dedup, List.mem_filterMap]
  constructor
  · rintro ⟨q, hq, h⟩
    by_cases hc : q.length = r.length + 1 ∧ r <+: q
    · rw [if_pos hc] at h
      obtain ⟨t, rfl⟩ := hc.2
      have hlen : t.length = 1 := by
        have := hc.1
        simp [List.length_append] at this
        omega
      obtain ⟨a, rfl⟩ := List.length_eq_one.1 hlen
      rw [List.getLast?_concat] at h
      obtain rfl : a = n := by injection h
      exact hq
    · rw [if_neg hc] at h
      exact absurd h (by simp)
  · intro h
    refine ⟨r ++ [n], h, ?_⟩
    rw [if_pos ⟨by simp, List.prefix_append r [n]⟩]
    exact List.getLast?_concat r

theorem installLoop_cons (net : String → HttpResp) (name : String) (d : Path)
    (file : String) (rest : List String) (installed : Bool) (p : Proc) :
    installLoop net name d (file :: rest) installed p =
      (match fetchedContent (net (rawUrl name file)) with
       | some c => installLoop net name d rest (installed || (file == "SKILL.md"))
           (Proc.mk (p.fs.writeFileSync (d ++ [file]) c)
             (p.out ++ [Ev.fetch (rawUrl name file)]) p.exitCode)
       | none => installLoop net name d rest installed (p.emit (Ev.fetch (rawUrl name file)))) := by
  cases h : fetchFile (net (rawUrl name file)) with
  | error e => simp [installLoop, fetchedContent, h, Proc.emit]
  | ok o =>
      cases o with
      | none => simp [installLoop, fetchedContent, h, Proc.emit]
      | some content =>
          by_cases hc : content = ""
          · simp [installLoop, fetchedContent, h, hc, Proc.emit]
          · simp [installLoop, fetchedContent, h, hc, Proc.emit]

theorem installLoop_out_append (net : String → HttpResp) (name : String) (d : Path) :
    ∀ (files : List String) (installed : Bool) (p : Proc),
      ∃ t, (installLoop net name d files installed p).1.out = p.out ++ t := by
  intro files
  induction files with
  | nil => intro installed p; exact ⟨[], by simp [installLoop]⟩
  | cons file rest ih =>
      intro installed p
      rw [installLoop_cons]
      cases hc : fetchedContent (net (rawUrl name file)) with
      | none =>
          obtain ⟨t, ht⟩ := ih installed (p.emit (Ev.fetch (rawUrl name file)))
          refine ⟨Ev.fetch (rawUrl name file) :: t, ?_⟩
          simp only [Proc.emit] at ht
          simpa using ht
      | some c =>
          obtain ⟨t, ht⟩ := ih (installed || (file == "SKILL.md"))
            (Proc.mk (p.fs.writeFileSync (d ++ [file]) c)
              (p.out ++ [Ev.fetch (rawUrl name file)]) p.exitCode)
          refine ⟨Ev.fetch (rawUrl name file) :: t, ?_⟩
          simpa using ht

theorem installLoop_fetch_mem (net : String → HttpResp) (name : String) (d : Path) :
    ∀ (files : List String) (installed : Bool) (p : Proc) (f : String), f ∈ files →
      Ev.fetch (rawUrl name f) ∈ (installLoop net name d files installed p).1.out := by
  intro files
  induction files with
  | nil => intro _ _ f hf; simp at hf
  | cons file rest ih =>
      intro installed p f hf
      rw [installLoop_cons]
      rcases List.mem_cons.1 hf with rfl | hf2
      · cases hc : fetchedContent (net (rawUrl name f)) with
        | none =>
            obtain ⟨t, ht⟩ := installLoop_out_append net name d rest installed
              (p.emit (Ev.fetch (rawUrl name f)))
            simp only [Proc.emit] at ht ⊢
            simp [ht]
        | some c =>
            obtain ⟨t, ht⟩ := installLoop_out_append net name d rest
              (installed || (f == "SKILL.md"))
              (Proc.mk (p.fs.writeFileSync (d ++ [f]) c)
                (p.out ++ [Ev.fetch (rawUrl name f)]) p.exitCode)
            simp [ht]
      · cases hc : fetchedContent (net (rawUrl name file)) with
        | none =>
            have h2 := ih installed (p.emit (Ev.fetch (rawUrl name file))) f hf2
            simpa using h2
        | some c =>
            have h2 := ih (installed || (file == "SKILL.md"))
              (Proc.mk (p.fs.writeFileSync (d ++ [file]) c)
                (p.out ++ [Ev.fetch (rawUrl name file)]) p.exitCode) f hf2
            simpa using h2

theorem installLoop_inst (net : String → HttpResp) (name : String) (d : Path) :
    ∀ (files : List String) (installed : Bool) (p : Proc),
      (installLoop net name d files installed p).2 =
        (installed || files.any (fun f =>
          (f == "SKILL.md") && (fetchedContent (net (rawUrl name f))).isSome)) := by
  intro files
  induction files with
  | nil => intro installed p; simp [installLoop]
  | cons file rest ih =>
      intro installed p
      rw [installLoop_cons]
      cases hc : fetchedContent (net (rawUrl name file)) with
      | none => simp [ih, hc, Bool.or_assoc]
      | some c => simp [ih, hc, Bool.or_assoc]

theorem installLoop_fileContent_notmem (net : String → HttpResp) (name : String) (d : Path) :
    ∀ (files : List String) (installed : Bool) (p : Proc) (g : String), g ∉ files →
      (installLoop net name d files installed p).1.fs.fileContent (d ++ [g]) =
        p.fs.fileContent (d ++ [g]) := by
  intro files
  induction files with
  | nil => intro _ _ g _; simp [installLoop]
  | cons file rest ih =>
      intro installed p g hg
      have hgf : g ≠ file := fun h => hg (h ▸ List.mem_cons_self file rest)
      have hgr : g ∉ rest := fun h => hg (List.mem_cons_of_mem file h)
      rw [installLoop_cons]
      cases hc : fetchedContent (net (rawUrl name file)) with
      | none =>
          have h2 := ih installed (p.emit (Ev.fetch (rawUrl name file))) g hgr
          simpa [Proc.emit] using h2
      | some c =>
          have hne : ¬ (d ++ [g] = d ++ [file]) := fun h => hgf (by simpa using h)
          have h2 := ih (installed || (file == "SKILL.md"))
            (Proc.mk (p.fs.writeFileSync (d ++ [file]) c)
              (p.out ++ [Ev.fetch (rawUrl name file)]) p.exitCode) g hgr
          simpa [FS.writeFileSync_fileContent, hne] using h2

theorem installLoop_fileContent_mem (net : String → HttpResp) (name : String) (d : Path) :
    ∀ (files : List String) (installed : Bool) (p : Proc) (f : String),
      files.Nodup → f ∈ files →
      (installLoop net name d files installed p).1.fs.fileContent (d ++ [f]) =
        (fetchedContent (net (rawUrl name f))).or (p.fs.fileContent (d ++ [f])) := by
  intro files
  induction files with
  | nil => intro _ _ f _ hf; simp at hf
  | cons file rest ih =>
      intro installed p f hnd hf
      have hnd2 : rest.Nodup := (List.nodup_cons.1 hnd).2
      have hhead : file ∉ rest := (List.nodup_cons.1 hnd).1
      rw [installLoop_cons]
      rcases List.mem_cons.1 hf with rfl | hf2
      · cases hc : fetchedContent (net (rawUrl name f)) with
        | none =>
            have h2 := installLoop_fileContent_notmem net name d rest installed
              (p.emit (Ev.fetch (rawUrl name f))) f hhead
            simpa [Proc.emit, Option.or] using h2
        | some c =>
            have h2 := installLoop_fileContent_notmem net name d rest
              (installed || (f == "SKILL.md"))
              (Proc.mk (p.fs.writeFileSync (d ++ [f]) c)
                (p.out ++ [Ev.fetch (rawUrl name f)]) p.exitCode) f hhead
            simpa [FS.writeFileSync_fileContent, Option.or] using h2
      · have hff : f ≠ file := fun h => hhead (h ▸ hf2)
        cases hc : fetchedContent (net (rawUrl name file)) with
        | none =>
            have h2 := ih installed (p.emit (Ev.fetch (rawUrl name file))) f hnd2 hf2
            simpa [Proc.emit] using h2
        | some c =>
            have hne : ¬ (d ++ [f] = d ++ [file]) := fun h => hff (by simpa using h)
            have h2 := ih (installed || (file == "SKILL.md"))
              (Proc.mk (p.fs.writeFileSync (d ++ [file]) c)
                (p.out ++ [Ev.fetch (rawUrl name file)]) p.exitCode) f hnd2 hf2
            simpa [FS.writeFileSync_fileContent, hne] using h2

theorem fetchLoopFS_cons (net : String → HttpResp) (name : String) (d : Path)
    (file : String) (rest : List String) (fs : FS) :
    fetchLoopFS net name d (file :: rest) fs =
      (match fetchedContent (net (rawUrl name file)) with
       | some c => fetchLoopFS net name d rest (fs.writeFileSync (d ++ [file]) c)
       | none => fetchLoopFS net name d rest fs) := by
  cases h : fetchFile (net (rawUrl name file)) with
  | error e => simp [fetchLoopFS, fetchedContent, h]
  | ok o =>
      cases o with
      | none => simp [fetchLoopFS, fetchedContent, h]
      | some content =>
          by_cases hc : content = ""
          · simp [fetchLoopFS, fetchedContent, h, hc]
          · simp [fetchLoopFS, fetchedContent, h, hc]

theorem fetchLoopFS_fileContent_notmem (net : String → HttpResp) (name : String) (d : Path) :
    ∀ (files : List String) (fs : FS) (g : String), g ∉ files →
      (fetchLoopFS net name d files fs).fileContent (d ++ [g]) = fs.fileContent (d ++ [g]) := by
  intro files
  induction files with
  | nil => intro _ g _; simp [fetchLoopFS]
  | cons file rest ih =>
      intro fs g hg
      have hgf : g ≠ file := fun h => hg (h ▸ List.mem_cons_self file rest)
      have hgr : g ∉ rest := fun h => hg (List.mem_cons_of_mem file h)
      rw [fetchLoopFS_cons]
      cases hc : fetchedContent (net (rawUrl name file)) with
      | none =>
          have h2 := ih fs g hgr
          simpa using h2
      | some c =>
          have hne : ¬ (d ++ [g] = d ++ [file]) := fun h => hgf (by simpa using h)
          have h2 := ih (fs.writeFileSync (d ++ [file]) c) g hgr
          simpa [FS.writeFileSync_fileContent, hne] using h2

theorem fetchLoopFS_fileContent_mem (net : String → HttpResp) (name : String) (d : Path) :
    ∀ (files : List String) (fs : FS) (f : String), files.Nodup → f ∈ files →
      (fetchLoopFS net name d files fs).fileContent (d ++ [f]) =
        (fetchedContent (net (rawUrl name f))).or (fs.fileContent (d ++ [f])) := by
  intro files
  induction files with
  | nil => intro _ f _ hf; simp at hf
  | cons file rest ih =>
      intro fs f hnd hf
      have hnd2 : rest.Nodup := (List.nodup_cons.1 hnd).2
      have hhead : file ∉ rest := (List.nodup_cons.1 hnd).1
      rw [fetchLoopFS_cons]
      rcases List.mem_cons.1 hf with rfl | hf2
      · cases hc : fetchedContent (net (rawUrl name f)) with
        | none =>
            have h2 := fetchLoopFS_fileContent_notmem net name d rest fs f hhead
            simpa [Option.or] using h2
        | some c =>
            have h2 := fetchLoopFS_fileContent_notmem net name d rest
              (fs.writeFileSync (d ++ [f]) c) f hhead
            simpa [FS.writeFileSync_fileContent, Option.or] using h2
      · have hff : f ≠ file := fun h => hhead (h ▸ hf2)
        cases hc : fetchedContent (net (rawUrl name file)) with
        | none =>
            have h2 := ih fs f hnd2 hf2
            simpa using h2
        | some c =>
            have hne : ¬ (d ++ [f] = d ++ [file]) := fun h => hff (by simpa using h)
            have h2 := ih (fs.writeFileSync (d ++ [file]) c) f hnd2 hf2
            simpa [FS.writeFileSync_fileContent, hne] using h2

theorem updateFold_dirs :
    ∀ (skills : List String) (p : Proc) (q : Path), q ∈ (updateFold skills p).fs.dirs →
      q ∈ p.fs.dirs ∧ ∀ s ∈ skills, ¬ (OPENCLAW_DIR ++ [s]) <+: q := by
  intro skills
  induction skills with
  | nil => intro p q h; exact ⟨by simpa [updateFold] using h, by simp⟩
  | cons s rest ih =>
      intro p q h
      have hstep : updateFold (s :: rest) p =
          updateFold rest (({ p with fs := p.fs.rmSync (OPENCLAW_DIR ++ [s]) }).log
            ("  Updating " ++ s ++ "...")) := by
        simp [updateFold]
      rw [hstep] at h
      obtain ⟨h1, h2⟩ := ih _ q h
      have h3 : q ∈ (p.fs.rmSync (OPENCLAW_DIR ++ [s])).dirs := by
        simpa [Proc.log, Proc.emit] using h1
      obtain ⟨h4, h5⟩ := (FS.mem_rmSync_dirs _ _ _).1 h3
      refine ⟨h4, ?_⟩
      intro s2 hs2
      rcases List.mem_cons.1 hs2 with rfl | hs3
      · exact h5
      · exact h2 s2 hs3

theorem updateFold_fileContent :
    ∀ (skills : List String) (p : Proc) (q : Path) (c : String),
      (updateFold skills p).fs.fileContent q = some c →
      p.fs.fileContent q = some c ∧ ∀ s ∈ skills, ¬ (OPENCLAW_DIR ++ [s]) <+: q := by
  intro skills
  induction skills with
  | nil => intro p q c h; exact ⟨by simpa [updateFold] using h, by simp⟩
  | cons s rest ih =>
      intro p q c h
      have hstep : updateFold (s :: rest) p =
          updateFold rest (({ p with fs := p.fs.rmSync (OPENCLAW_DIR ++ [s]) }).log
            ("  Updating " ++ s ++ "...")) := by
        simp [updateFold]
      rw [hstep] at h
      obtain ⟨h1, h2⟩ := ih _ q c h
      have h3 : (p.fs.rmSync (OPENCLAW_DIR ++ [s])).fileContent q = some c := by
        simpa [Proc.log, Proc.emit] using h1
      obtain ⟨h4, h5⟩ := FS.rmSync_fileContent_some _ _ _ _ h3
      refine ⟨h4, ?_⟩
      intro s2 hs2
      rcases List.mem_cons.1 hs2 with rfl | hs3
      · exact h5
      · exact h2 s2 hs3

theorem updateFold_out :
    ∀ (skills : List String) (p : Proc) (e : Ev), e ∈ (updateFold skills p).out →
      e ∈ p.out ∨ ∃ s, e = Ev.log ("  Updating " ++ s ++ "...") := by
  intro skills
  induction skills with
  | nil => intro p e h; exact Or.inl (by simpa [updateFold] using h)
  | cons s rest ih =>
      intro p e h
      have hstep : updateFold (s :: rest) p =
          updateFold rest (({ p with fs := p.fs.rmSync (OPENCLAW_DIR ++ [s]) }).log
            ("  Updating " ++ s ++ "...")) := by
        simp [updateFold]
      rw [hstep] at h
      rcases ih _ e h with h2 | h2
      · simp only [Proc.log, Proc.emit, List.mem_append, List.mem_singleton] at h2
        rcases h2 with h3 | h3
        · exact Or.inl h3
        · exact Or.inr ⟨s, h3⟩
      · exact Or.inr h2

theorem parseLicense_foldl_none :
    ∀ (l : List String) (acc : Option String),
      (∀ a ∈ l, jsStartsWith a ("--license=") = false) →
      l.foldl (fun license arg =>
        if jsStartsWith arg ("--license=") then some ((jsSplit arg '=').getD 1 ("")) else license)
        acc = acc := by
  intro l
  induction l with
  | nil => intro acc _; rfl
  | cons a rest ih =>
      intro acc h
      have ha : jsStartsWith a ("--license=") = false := h a (List.mem_cons_self a rest)
      simp only [List.foldl_cons, ha, Bool.false_eq_true, if_false]
      exact ih acc (fun b hb => h b (List.mem_cons_of_mem a hb))

theorem parseLicense_eq_none (extraArgs : List String)
    (h : ∀ a ∈ extraArgs, jsStartsWith a ("--license=") = false) :
    parseLicense extraArgs = none :=
  parseLicense_foldl_none extraArgs none h

end Lemmas

/-- C1: with no demo directory present and the remote host answering 200
with body X for SKILL.md and 404 for config.json and README.md, the install
operation creates the demo skill directory containing exactly one file,
SKILL.md with content X, prints the success message, and the process exit
code is 0. -/
theorem c1_install_demo_end_to_end :
    (installSkill c1net ("demo") (Proc.mk (FS.mk [] []) [] 0)).fs.files
        = [(OPENCLAW_DIR ++ ["demo", "SKILL.md"], "X")] ∧
    (installSkill c1net ("demo") (Proc.mk (FS.mk [] []) [] 0)).fs.isDir
        (OPENCLAW_DIR ++ ["demo"]) = true ∧
    (installSkill c1net ("demo") (Proc.mk (FS.mk [] []) [] 0)).fs.fileContent
        (OPENCLAW_DIR ++ ["demo", "SKILL.md"]) = some ("X") ∧
    Ev.success ("Installed skill \"demo\" to HOME/.openclaw/skills/demo")
        ∈ (installSkill c1net ("demo") (Proc.mk (FS.mk [] []) [] 0)).out ∧
    (installSkill c1net ("demo") (Proc.mk (FS.mk [] []) [] 0)).exitCode = 0 := by
  decide

/-- C4 counterexample: a 201 response (a 2xx status other than 200) for
SKILL.md does not cause the body to be written and does not make the install
succeed — the fetch is rejected, the installed flag stays false, the
directory is removed and the not-found error is printed — contradicting the
claim that any 2xx response causes the body to be written and that success
is declared whenever the SKILL.md fetch succeeded. -/
theorem c4_counterexample_201_not_written :
    (installSkill c4net ("demo") (Proc.mk (FS.mk [] []) [] 0)).fs.fileContent
        (OPENCLAW_DIR ++ ["demo", "SKILL.md"]) = none ∧
    (installSkill c4net ("demo") (Proc.mk (FS.mk [] []) [] 0)).fs.isDir
        (OPENCLAW_DIR ++ ["demo"]) = false ∧
    Ev.err ("Skill \"demo\" not found. Run \"skunk available\" to see available skills.")
        ∈ (installSkill c4net ("demo") (Proc.mk (FS.mk [] []) [] 0)).out ∧
    (installLoop c4net ("demo") (OPENCLAW_DIR ++ ["demo"])
        ["SKILL.md", "config.json", "README.md"] false (Proc.mk (FS.mk [] []) [] 0)).2 = false := by
  decide

/-- C7: in the download-and-cache path, the list of GETs issued equals the
initial URL followed by exactly one GET to the Location header when the
first response is a 301/302 redirect, and just the initial URL otherwise —
in particular a redirect answer to the second GET is never followed, so no
third request is ever issued, whatever the oracle answers. -/
theorem c7_redirect_followed_once (w : World) (url pluginSlug : String) (p : Proc) :
    (downloadToCache w url pluginSlug p).2.2 =
      (if (w.net url).isRedirect then [url, (w.net url).redirectLoc] else [url]) := by
  cases h : w.net url with
  | netError => simp [downloadToCache, HttpResp.isRedirect, h]
  | resp s b l =>
      by_cases hs : s = 302 ∨ s = 301
      · cases h2 : w.net (l.getD ("")) with
        | netError =>
            simp [downloadToCache, HttpResp.isRedirect, HttpResp.redirectLoc, h, h2, hs]
        | resp s2 b2 l2 =>
            simp [downloadToCache, HttpResp.isRedirect, HttpResp.redirectLoc, h, h2, hs]
      · have h302 : s ≠ 302 := fun hh => hs (Or.inl hh)
        have h301 : s ≠ 301 := fun hh => hs (Or.inr hh)
        by_cases h200 : s = 200
        · simp [downloadToCache, HttpResp.isRedirect, h, hs, h200, h302, h301]
        · simp [downloadToCache, HttpResp.isRedirect, h, hs, h200, h302, h301]

/-- C8: the license validator never throws — it always resolves a result —
and maps a connection failure and an unparseable response body to an invalid
result with the corresponding diagnostic string; a valid result is resolved
only when the parsed response has truthy success and data fields with
data.valid set. -/
theorem c8_validate_license_contract (parse : String → Option Json) (key product : String)
    (resp : WireResp) :
    (resp = WireResp.netError →
      (validateLicense parse key product resp).result =
        LicenseResult.mk false (some (Json.str ("Could not connect to license server"))) none none) ∧
    (∀ data, resp = WireResp.body data → parse data = none →
      (validateLicense parse key product resp).result =
        LicenseResult.mk false (some (Json.str ("Failed to validate license"))) none none) ∧
    ((validateLicense parse key product resp).result.valid = true →
      ∃ data json d, resp = WireResp.body data ∧ parse data = some json ∧
        jsTruthy (json.get ("success")) = true ∧ json.get ("data") = some d ∧
        jsTruthy (d.get ("valid")) = true) := by
  refine ⟨?_, ?_, ?_⟩
  · rintro rfl
    simp [validateLicense]
  · rintro data rfl hp
    simp [validateLicense, hp]
  · intro hv
    cases resp with
    | netError => simp [validateLicense] at hv
    | body data =>
        cases hp : parse data with
        | none => simp [validateLicense, hp] at hv
        | some json =>
            by_cases hcond : (jsTruthy (json.get ("success")) && jsTruthy (json.get ("data")) &&
                jsTruthy ((json.get ("data")).bind (fun d => d.get ("valid")))) = true
            · simp only [Bool.and_eq_true] at hcond
              obtain ⟨⟨h1, h2⟩, h3⟩ := hcond
              cases hd : json.get ("data") with
              | none => rw [hd] at h2; simp [jsTruthy] at h2
              | some d =>
                  refine ⟨data, json, d, rfl, hp, h1, hd, ?_⟩
                  rw [hd] at h3
                  simpa using h3
            · rw [show validateLicense parse key product (WireResp.body data) =
                validateLicense parse key product (WireResp.body data) from rfl] at hv
              simp only [validateLicense, hp] at hv
              rw [if_neg (fun hh => hcond hh)] at hv
              simp at hv

/-- C8 witness: an unparseable response body resolves an invalid result
with the parse-failure diagnostic. -/
theorem c8_witness :
    (validateLicense (fun _ => none) ("abc") ("skunkcrm-pro") (WireResp.body ("xyz"))).result =
      LicenseResult.mk false (some (Json.str ("Failed to validate license"))) none none :=
  (c8_validate_license_contract (fun _ => none) ("abc") ("skunkcrm-pro")
    (WireResp.body ("xyz"))).2.1 ("xyz") rfl rfl

/-- C9 counterexample: in the dispatch-table revision the token toString is
a truthy prototype-chain hit — the inherited function is invoked and no
usage text is printed — and the token proto-dunder is a truthy non-callable
hit whose invocation throws an uncaught TypeError, exiting the process with
code 1; both tokens match no entry of the command mapping, contradicting
the claim that every unmatched token prints the usage text and exits 0. -/
theorem c9_counterexample_prototype_token :
    routeCommand1 ["toString"] = Routed1.inherited ("toString") false ∧
    (dispatchInherited1 false (Proc.mk (FS.mk [] []) [] 0)).out = [] ∧
    routeCommand1 ["__proto__"] = Routed1.inherited ("__proto__") true ∧
    (dispatchInherited1 true (Proc.mk (FS.mk [] []) [] 0)).exitCode = 1 := by
  decide

/-- C9 amended: in the switch-based router every first token matching no
case reaches the default branch, which prints the unknown-command line and
the help text and leaves the exit code 0, and a missing or empty first
token is falsy and selects the help case; in the dispatch-table revision
the same holds for every unmatched token that is not an inherited
Object.prototype property, while a prototype-chain hit prints nothing and
exits 0 when the invoked value returns and 1 when it throws. -/
theorem c9_router_amended (argv : List String) (cmd : String) (fs0 : FS)
    (hhead : argv.head? = some cmd)
    (hne : ¬ (cmd = ""))
    (h0 : cmd ∉ commandNames) :
    routeCommand argv = Routed.unknown cmd ∧
    (dispatchUnknown cmd (Proc.mk fs0 [] 0)).out =
      [Ev.log ("Unknown command: " ++ cmd), Ev.log HELP_TEXT] ∧
    (dispatchUnknown cmd (Proc.mk fs0 [] 0)).exitCode = 0 ∧
    (cmd ∉ commandNames1 → objectProtoProps.find? (fun e => e.1 == cmd) = none →
      routeCommand1 argv = Routed1.unknown cmd ∧
      (dispatchUnknown1 cmd (Proc.mk fs0 [] 0)).out =
        [Ev.log ("Unknown command: " ++ cmd), Ev.log HELP1_TEXT] ∧
      (dispatchUnknown1 cmd (Proc.mk fs0 [] 0)).exitCode = 0) ∧
    (∀ throws : Bool, (dispatchInherited1 throws (Proc.mk fs0 [] 0)).out = [] ∧
      (dispatchInherited1 throws (Proc.mk fs0 [] 0)).exitCode = (if throws then 1 else 0)) ∧
    routeCommand [] = Routed.help ∧
    routeCommand [""] = Routed.help ∧
    routeCommand1 [] = Routed1.dispatch ("help") none ∧
    routeCommand1 [""] = Routed1.dispatch ("help") none := by
  have hcmd : jsOrDefault argv.head? ("help") = cmd := by
    rw [hhead]
    simp [jsOrDefault, hne]
  simp only [commandNames, List.mem_cons, List.not_mem_nil, or_false, not_or] at h0
  obtain ⟨hc1, hc2, hc3, hc4, hc5, hc6, hc7, hc8, hc9, hc10, hc11⟩ := h0
  refine ⟨?_, ?_, rfl, ?_, ?_, by decide, by decide, by decide, by decide⟩
  · simp [routeCommand, hcmd, hc1, hc2, hc3, hc4, hc5, hc6, hc7, hc8, hc9, hc10, hc11]
  · simp [dispatchUnknown, showHelp, Proc.log, Proc.emit]
  · intro hmem hproto
    refine ⟨?_, ?_, rfl⟩
    · simp [routeCommand1, hcmd, hmem, hproto]
    · simp [dispatchUnknown1, Proc.log, Proc.emit]
  · intro throws
    cases throws <;> simp [dispatchInherited1]

/-- C9 witness: the token frobnicate matches no case, no own key and no
inherited property; both routers print the unknown-command output and the
exit code stays 0. -/
theorem c9_router_witness :
    routeCommand ["frobnicate"] = Routed.unknown ("frobnicate") ∧
    (dispatchUnknown ("frobnicate") (Proc.mk (FS.mk [] []) [] 0)).out =
      [Ev.log ("Unknown command: frobnicate"), Ev.log HELP_TEXT] ∧
    routeCommand1 ["frobnicate"] = Routed1.unknown ("frobnicate") ∧
    (dispatchUnknown1 ("frobnicate") (Proc.mk (FS.mk [] []) [] 0)).exitCode = 0 := by
  have h := c9_router_amended ["frobnicate"] ("frobnicate") (FS.mk [] [])
    (by decide) (by decide) (by decide)
  exact ⟨h.1, h.2.1, (h.2.2.2.1 (by decide) (by decide)).1,
    (h.2.2.2.1 (by decide) (by decide)).2.2⟩

/-- C3: when the skill directory already exists, the install operation
leaves the filesystem byte-for-byte unchanged, prints the already-installed
message, and ends with exit code 0 (it reports instead of throwing). -/
theorem c3_already_installed_noop (net : String → HttpResp) (name : String) (fs0 : FS)
    (hname : ¬ (name = ""))
    (hwf : fs0.wfb = true)
    (hex : fs0.existsSync (OPENCLAW_DIR ++ [name]) = true) :
    (installSkill net name (Proc.mk fs0 [] 0)).fs = fs0 ∧
    Ev.log ("Skill " ++ name ++ " is already installed. Remove it first with: skunk remove skill " ++ name)
      ∈ (installSkill net name (Proc.mk fs0 [] 0)).out ∧
    (installSkill net name (Proc.mk fs0 [] 0)).exitCode = 0 := by
  have hprefmem : OPENCLAW_DIR ∈ pathPrefixes (OPENCLAW_DIR ++ [name]) :=
    mem_pathPrefixes.2 ⟨by simp [OPENCLAW_DIR], List.prefix_append _ _⟩
  have hroot : fs0.existsSync OPENCLAW_DIR = true := by
    have hdisj : fs0.isDir (OPENCLAW_DIR ++ [name]) = true ∨
        fs0.isFile (OPENCLAW_DIR ++ [name]) = true := by
      have h2 := hex
      rw [FS.existsSync] at h2
      simpa [Bool.or_eq_true] using h2
    have hdirs : OPENCLAW_DIR ∈ fs0.dirs := by
      rcases hdisj with hd | hf
      · have hmem : (OPENCLAW_DIR ++ [name]) ∈ fs0.dirs := by
          simpa [FS.isDir] using hd
        exact FS.wfb_dirs fs0 hwf _ hmem _ hprefmem
      · obtain ⟨c, hcc⟩ : ∃ c, fs0.fileContent (OPENCLAW_DIR ++ [name]) = some c := by
          cases hcc : fs0.fileContent (OPENCLAW_DIR ++ [name]) with
          | none => rw [FS.isFile, hcc] at hf; simp at hf
          | some c => exact ⟨c, rfl⟩
        have hmem := lookupFile_some_mem hcc
        have hdL : ((OPENCLAW_DIR ++ [name]) ++ []).dropLast = OPENCLAW_DIR := by simp
        have hmm : OPENCLAW_DIR ∈ pathPrefixes ((OPENCLAW_DIR ++ [name]).dropLast) := by
          have : (OPENCLAW_DIR ++ [name]).dropLast = OPENCLAW_DIR := by simp
          rw [this]
          exact mem_pathPrefixes.2 ⟨by simp [OPENCLAW_DIR], List.prefix_refl _⟩
        exact FS.wfb_files fs0 hwf _ hmem _ hmm
    simp [FS.existsSync, FS.isDir, hdirs]
  refine ⟨?_, ?_, ?_⟩ <;>
    simp [installSkill, hname, Proc.log, Proc.emit, hroot, hex]

/-- C3 witness: installing the already-present demo skill changes nothing
and prints the already-installed line. -/
theorem c3_witness :
    demoFS.wfb = true ∧
    (installSkill (fun _ => HttpResp.netError) ("demo") (Proc.mk demoFS [] 0)).fs = demoFS ∧
    Ev.log ("Skill demo is already installed. Remove it first with: skunk remove skill demo")
      ∈ (installSkill (fun _ => HttpResp.netError) ("demo") (Proc.mk demoFS [] 0)).out := by
  have h := c3_already_installed_noop (fun _ => HttpResp.netError) ("demo") demoFS
    (by decide) (by decide) (by decide)
  exact ⟨by decide, h.1, by decide⟩

/-- C2: when the skill is not yet present and the marker file SKILL.md
answers 404 (so the success flag is never set), the whole skill directory is
gone after the operation — whatever the responses for the optional files
were — in both the main installer and the installer of the setup wizard, and the
wizard reports the failed status. -/
theorem c2_marker_404_no_residual (net : String → HttpResp) (name : String) (fs0 : FS)
    (hname : ¬ (name = ""))
    (hwf : fs0.wfb = true)
    (hfresh : fs0.existsSync (OPENCLAW_DIR ++ [name]) = false)
    (h404 : (net (rawUrl name ("SKILL.md"))).is404 = true) :
    (∀ q : Path, (OPENCLAW_DIR ++ [name]) <+: q →
      (installSkill net name (Proc.mk fs0 [] 0)).fs.existsSync q = false) ∧
    (∀ q : Path, (OPENCLAW_DIR ++ [name]) <+: q →
      (setupInstallSkill net name fs0).1.existsSync q = false) ∧
    (setupInstallSkill net name fs0).2 = SkillStatus.failed := by
  have hfc : fetchedContent (net (rawUrl name ("SKILL.md"))) = none := by
    cases hr : net (rawUrl name ("SKILL.md")) with
    | netError =>
        rw [hr] at h404
        simp [HttpResp.is404] at h404
    | resp s b l =>
        have hs : s = 404 := by
          rw [hr] at h404
          simpa [HttpResp.is404] using h404
        simp [fetchedContent, fetchFile, hs]
  have e1 : (("config.json" : String) == "SKILL.md") = false := by decide
  have e2 : (("README.md" : String) == "SKILL.md") = false := by decide
  have hflag : ∀ p : Proc, (installLoop net name (OPENCLAW_DIR ++ [name])
      ["SKILL.md", "config.json", "README.md"] false p).2 = false := by
    intro p
    rw [installLoop_inst]
    simp [hfc, e1, e2]
  have hfreshD : fs0.isDir (OPENCLAW_DIR ++ [name]) = false := by
    have := hfresh
    rw [FS.existsSync] at this
    exact (Bool.or_eq_false_iff.1 this).1
  have hfreshF : fs0.isFile (OPENCLAW_DIR ++ [name]) = false := by
    have := hfresh
    rw [FS.existsSync] at this
    exact (Bool.or_eq_false_iff.1 this).2
  have hfreshM : (fs0.mkdirSync OPENCLAW_DIR).existsSync (OPENCLAW_DIR ++ [name]) = false := by
    have hd : ¬ ((OPENCLAW_DIR ++ [name]) ∈ fs0.dirs) := by
      intro hmem
      rw [FS.isDir, decide_eq_false_iff_not] at hfreshD
      exact hfreshD hmem
    have hp : ¬ ((OPENCLAW_DIR ++ [name]) ∈ pathPrefixes OPENCLAW_DIR) := by
      intro hmem
      have hpre := (mem_pathPrefixes.1 hmem).2
      have hlen := hpre.length_le
      simp [OPENCLAW_DIR] at hlen
    have hd2 : (fs0.mkdirSync OPENCLAW_DIR).isDir (OPENCLAW_DIR ++ [name]) = false := by
      rw [FS.isDir, decide_eq_false_iff_not]
      intro hmem
      rcases (FS.mem_mkdirSync_dirs fs0 OPENCLAW_DIR _).1 hmem with h | h
      · exact hd h
      · exact hp h
    have hf2 : (fs0.mkdirSync OPENCLAW_DIR).isFile (OPENCLAW_DIR ++ [name]) = false := by
      rw [FS.isFile]
      have : (fs0.mkdirSync OPENCLAW_DIR).fileContent (OPENCLAW_DIR ++ [name]) =
          fs0.fileContent (OPENCLAW_DIR ++ [name]) := rfl
      rw [this]
      rw [FS.isFile] at hfreshF
      exact hfreshF
    rw [FS.existsSync, hd2, hf2]
    rfl
  have hsk : fs0.fileContent ((OPENCLAW_DIR ++ [name]) ++ ["SKILL.md"]) = none := by
    cases hcc : fs0.fileContent ((OPENCLAW_DIR ++ [name]) ++ ["SKILL.md"]) with
    | none => rfl
    | some c =>
        exfalso
        have hmem := lookupFile_some_mem hcc
        have hmm : (OPENCLAW_DIR ++ [name]) ∈
            pathPrefixes (((OPENCLAW_DIR ++ [name]) ++ ["SKILL.md"]).dropLast) := by
          have hdr : ((OPENCLAW_DIR ++ [name]) ++ ["SKILL.md"]).dropLast =
              OPENCLAW_DIR ++ [name] := by simp
          rw [hdr]
          exact mem_pathPrefixes.2 ⟨by simp, List.prefix_refl _⟩
        have hdirs := FS.wfb_files fs0 hwf _ hmem _ hmm
        rw [FS.isDir, decide_eq_false_iff_not] at hfreshD
        exact hfreshD hdirs
  refine ⟨?_, ?_, ?_⟩
  · intro q hq
    by_cases hroot : fs0.existsSync OPENCLAW_DIR = true
    · simp only [installSkill, hname, if_false, Proc.log, Proc.warn, Proc.error,
        Proc.success, Proc.emit, hroot, if_true, hfresh, hflag, Bool.false_eq_true]
      exact FS.rmSync_existsSync _ _ q hq
    · have hrootF : fs0.existsSync OPENCLAW_DIR = false := by
        cases hb : fs0.existsSync OPENCLAW_DIR
        · rfl
        · exact absurd hb hroot
      simp only [installSkill, hname, if_false, Proc.log, Proc.warn, Proc.error,
        Proc.success, Proc.emit, hrootF, hfreshM, hflag, Bool.false_eq_true, if_true]
      exact FS.rmSync_existsSync _ _ q hq
  · intro q hq
    have hcontent : (fetchLoopFS net name (OPENCLAW_DIR ++ [name]) ["SKILL.md", "config.json"]
        (fs0.mkdirSync (OPENCLAW_DIR ++ [name]))).fileContent
          ((OPENCLAW_DIR ++ [name]) ++ ["SKILL.md"]) = none := by
      rw [fetchLoopFS_fileContent_mem net name (OPENCLAW_DIR ++ [name])
        ["SKILL.md", "config.json"] (fs0.mkdirSync (OPENCLAW_DIR ++ [name])) ("SKILL.md")
        (by decide) (by simp)]
      rw [hfc]
      have : (fs0.mkdirSync (OPENCLAW_DIR ++ [name])).fileContent
          ((OPENCLAW_DIR ++ [name]) ++ ["SKILL.md"]) =
          fs0.fileContent ((OPENCLAW_DIR ++ [name]) ++ ["SKILL.md"]) := rfl
      rw [Option.or, this, hsk]
    simp only [setupInstallSkill, hfresh, Bool.false_eq_true, if_false, FS.isFile,
      hcontent, Option.isSome_none]
    exact FS.rmSync_existsSync _ _ q hq
  · have hcontent : (fetchLoopFS net name (OPENCLAW_DIR ++ [name]) ["SKILL.md", "config.json"]
        (fs0.mkdirSync (OPENCLAW_DIR ++ [name]))).fileContent
          ((OPENCLAW_DIR ++ [name]) ++ ["SKILL.md"]) = none := by
      rw [fetchLoopFS_fileContent_mem net name (OPENCLAW_DIR ++ [name])
        ["SKILL.md", "config.json"] (fs0.mkdirSync (OPENCLAW_DIR ++ [name])) ("SKILL.md")
        (by decide) (by simp)]
      rw [hfc]
      have : (fs0.mkdirSync (OPENCLAW_DIR ++ [name])).fileContent
          ((OPENCLAW_DIR ++ [name]) ++ ["SKILL.md"]) =
          fs0.fileContent ((OPENCLAW_DIR ++ [name]) ++ ["SKILL.md"]) := rfl
      rw [Option.or, this, hsk]
    have hcontent2 : (fetchLoopFS net name (OPENCLAW_DIR ++ [name]) ["SKILL.md", "config.json"]
        (fs0.mkdirSync (OPENCLAW_DIR ++ [name]))).fileContent
          (OPENCLAW_DIR ++ [name, "SKILL.md"]) = none := by
      simpa using hcontent
    simp [setupInstallSkill, hfresh, FS.isFile, hcontent, hcontent2]

/-- C2 witness: with every URL answering 404, installing the absent demo
skill leaves no demo directory and the wizard variant reports failure. -/
theorem c2_witness :
    (installSkill (fun _ => HttpResp.resp 404 ("") none) ("demo")
        (Proc.mk (FS.mk [] []) [] 0)).fs.existsSync (OPENCLAW_DIR ++ ["demo"]) = false ∧
    (setupInstallSkill (fun _ => HttpResp.resp 404 ("") none) ("demo")
        (FS.mk [] [])).2 = SkillStatus.failed := by
  have h := c2_marker_404_no_residual (fun _ => HttpResp.resp 404 ("") none) ("demo")
    (FS.mk [] []) (by decide) (by decide) (by decide) (by decide)
  exact ⟨h.1 (OPENCLAW_DIR ++ ["demo"]) (List.prefix_refl _), h.2.2⟩

/-- C4 amended: during the fetch loop of a skill install, a file is written
exactly when its fetch answered 200 with a nonempty body (404 answers, other
statuses and empty 200 bodies all leave the file untouched while the loop
still proceeds to every file in the list), and the success flag is set if
and only if the SKILL.md fetch answered 200 with a nonempty body. -/
theorem c4_fetch_loop_amended (net : String → HttpResp) (name : String) (p0 : Proc) :
    ((installLoop net name (OPENCLAW_DIR ++ [name]) ["SKILL.md", "config.json", "README.md"]
        false p0).2 = (fetchedContent (net (rawUrl name ("SKILL.md")))).isSome) ∧
    (∀ f ∈ (["SKILL.md", "config.json", "README.md"] : List String),
      (installLoop net name (OPENCLAW_DIR ++ [name]) ["SKILL.md", "config.json", "README.md"]
          false p0).1.fs.fileContent ((OPENCLAW_DIR ++ [name]) ++ [f]) =
        (fetchedContent (net (rawUrl name f))).or
          (p0.fs.fileContent ((OPENCLAW_DIR ++ [name]) ++ [f]))) ∧
    (∀ f ∈ (["SKILL.md", "config.json", "README.md"] : List String),
      Ev.fetch (rawUrl name f) ∈
        (installLoop net name (OPENCLAW_DIR ++ [name]) ["SKILL.md", "config.json", "README.md"]
          false p0).1.out) := by
  have e1 : (("config.json" : String) == "SKILL.md") = false := by decide
  have e2 : (("README.md" : String) == "SKILL.md") = false := by decide
  refine ⟨?_, ?_, ?_⟩
  · rw [installLoop_inst]
    simp [e1, e2]
  · intro f hf
    exact installLoop_fileContent_mem net name (OPENCLAW_DIR ++ [name])
      ["SKILL.md", "config.json", "README.md"] false p0 f (by decide) hf
  · intro f hf
    exact installLoop_fetch_mem net name (OPENCLAW_DIR ++ [name])
      ["SKILL.md", "config.json", "README.md"] false p0 f hf

/-- C4 witness: under the end-to-end oracle the loop writes SKILL.md with
body X and sets the success flag. -/
theorem c4_witness :
    (installLoop c1net ("demo") (OPENCLAW_DIR ++ ["demo"]) ["SKILL.md", "config.json", "README.md"]
        false (Proc.mk (FS.mk [] []) [] 0)).1.fs.fileContent
          ((OPENCLAW_DIR ++ ["demo"]) ++ ["SKILL.md"]) = some ("X") ∧
    (installLoop c1net ("demo") (OPENCLAW_DIR ++ ["demo"]) ["SKILL.md", "config.json", "README.md"]
        false (Proc.mk (FS.mk [] []) [] 0)).2 = true := by
  have h := c4_fetch_loop_amended c1net ("demo") (Proc.mk (FS.mk [] []) [] 0)
  constructor
  · rw [h.2.1 ("SKILL.md") (by decide)]
    decide
  · rw [h.1]
    decide

/-- C5: requesting a registered -pro plugin with no --license= flag, when at
least one of wp and studio is present, runs no install subprocess and issues
no download, prints the license warning and the guidance line, and leaves
the filesystem unchanged. -/
theorem c5_pro_without_license (w : World) (name : String) (plugin : PluginInfo)
    (extraArgs : List String) (fs0 : FS)
    (hreg : registryLookup (stripProName name) = some plugin)
    (hpro : jsEndsWith name ("-pro") = true)
    (hlic : ∀ a ∈ extraArgs, jsStartsWith a ("--license=") = false)
    (hcli : (w.cmdExists ("wp") || w.cmdExists ("studio")) = true) :
    (∀ e ∈ (installPlugin w name extraArgs (Proc.mk fs0 [] 0)).out,
        (∀ c, e ≠ Ev.exec c) ∧ (∀ u, e ≠ Ev.fetch u)) ∧
    Ev.warn ("Pro version requires a license key.")
      ∈ (installPlugin w name extraArgs (Proc.mk fs0 [] 0)).out ∧
    Ev.log ("  skunk install plugin " ++ name ++ " --license=YOUR_LICENSE_KEY")
      ∈ (installPlugin w name extraArgs (Proc.mk fs0 [] 0)).out ∧
    (installPlugin w name extraArgs (Proc.mk fs0 [] 0)).fs = fs0 := by
  have hlic2 : parseLicense extraArgs = none := parseLicense_eq_none extraArgs hlic
  have hcli2 : (!w.cmdExists ("wp") && !w.cmdExists ("studio")) = false := by
    have h2 : w.cmdExists ("wp") = true ∨ w.cmdExists ("studio") = true := by
      simpa [Bool.or_eq_true] using hcli
    rcases h2 with h | h <;> simp [h]
  have hout : (installPlugin w name extraArgs (Proc.mk fs0 [] 0)).out =
      [Ev.probe ("wp"), Ev.probe ("studio"),
       Ev.log ("Installing " ++ (plugin.name ++ " Pro") ++ "..."),
       Ev.warn ("Pro version requires a license key."),
       Ev.log ("  skunk install plugin " ++ name ++ " --license=YOUR_LICENSE_KEY"),
       Ev.log ("Get a license at: https://skunkglobal.com/pricing")] := by
    simp [installPlugin, hreg, hpro, hlic2, hcli2, truthyOptStr, commandExistsP,
      Proc.log, Proc.warn, Proc.emit]
  have hfs : (installPlugin w name extraArgs (Proc.mk fs0 [] 0)).fs = fs0 := by
    simp [installPlugin, hreg, hpro, hlic2, hcli2, truthyOptStr, commandExistsP,
      Proc.log, Proc.warn, Proc.emit]
  refine ⟨?_, ?_, ?_, hfs⟩
  · intro e he
    rw [hout] at he
    simp only [List.mem_cons, List.not_mem_nil, or_false] at he
    rcases he with rfl | rfl | rfl | rfl | rfl | rfl <;>
      exact ⟨fun c => by simp, fun u => by simp⟩
  · rw [hout]
    simp
  · rw [hout]
    simp

/-- C5 witness: skunkcrm-pro with no arguments and wp present yields the
warning and no subprocess events. -/
theorem c5_witness :
    Ev.warn ("Pro version requires a license key.")
      ∈ (installPlugin wpWorld ("skunkcrm-pro") [] (Proc.mk (FS.mk [] []) [] 0)).out ∧
    (installPlugin wpWorld ("skunkcrm-pro") [] (Proc.mk (FS.mk [] []) [] 0)).fs = FS.mk [] [] := by
  have h := c5_pro_without_license wpWorld ("skunkcrm-pro")
    (PluginInfo.mk ("skunkcrm") ("skunkcrm-pro") ("SkunkCRM")) [] (FS.mk [] [])
    (by decide) (by decide) (by simp) (by decide)
  exact ⟨h.2.1, h.2.2.2⟩

/-- C6: an unknown plugin name produces the unknown-plugin error and the
full registry listing (the free and pro line of every entry), runs no
subprocess, probes no tool, fetches nothing, leaves the filesystem
unchanged, and the handler returns normally rather than raising. -/
theorem c6_unknown_plugin (w : World) (name : String) (extraArgs : List String) (fs0 : FS)
    (hreg : registryLookup (stripProName name) = none) :
    (∀ e ∈ (installPlugin w name extraArgs (Proc.mk fs0 [] 0)).out,
        (∀ c, e ≠ Ev.exec c) ∧ (∀ c, e ≠ Ev.probe c) ∧ (∀ u, e ≠ Ev.fetch u)) ∧
    Ev.err ("Unknown plugin: " ++ name)
      ∈ (installPlugin w name extraArgs (Proc.mk fs0 [] 0)).out ∧
    (∀ entry ∈ PLUGIN_REGISTRY,
        pluginFreeLine entry ∈ (installPlugin w name extraArgs (Proc.mk fs0 [] 0)).out ∧
        pluginProLine entry ∈ (installPlugin w name extraArgs (Proc.mk fs0 [] 0)).out) ∧
    (installPlugin w name extraArgs (Proc.mk fs0 [] 0)).fs = fs0 := by
  have hout : (installPlugin w name extraArgs (Proc.mk fs0 [] 0)).out =
      [Ev.err ("Unknown plugin: " ++ name), Ev.log ("Available plugins:"),
       Ev.log ("Available WordPress plugins:"),
       pluginFreeLine (("skunkcrm", PluginInfo.mk ("skunkcrm") ("skunkcrm-pro") ("SkunkCRM"))),
       pluginProLine (("skunkcrm", PluginInfo.mk ("skunkcrm") ("skunkcrm-pro") ("SkunkCRM"))),
       pluginFreeLine (("skunkforms", PluginInfo.mk ("skunkforms") ("skunkforms-pro") ("SkunkForms"))),
       pluginProLine (("skunkforms", PluginInfo.mk ("skunkforms") ("skunkforms-pro") ("SkunkForms"))),
       pluginFreeLine (("skunkpages", PluginInfo.mk ("skunkpages") ("skunkpages-pro") ("SkunkPages"))),
       pluginProLine (("skunkpages", PluginInfo.mk ("skunkpages") ("skunkpages-pro") ("SkunkPages"))),
       Ev.log ("Install with: skunk install plugin <name>  Pro versions: skunk install plugin <name>-pro --license=XXXX")] := by
    simp [installPlugin, hreg, listPlugins, PLUGIN_REGISTRY, Proc.log, Proc.error, Proc.emit]
  have hfs : (installPlugin w name extraArgs (Proc.mk fs0 [] 0)).fs = fs0 := by
    simp [installPlugin, hreg, listPlugins, PLUGIN_REGISTRY, Proc.log, Proc.error, Proc.emit]
  refine ⟨?_, ?_, ?_, hfs⟩
  · intro e he
    rw [hout] at he
    simp only [List.mem_cons, List.not_mem_nil, or_false, pluginFreeLine, pluginProLine] at he
    rcases he with rfl | rfl | rfl | rfl | rfl | rfl | rfl | rfl | rfl | rfl <;>
      exact ⟨fun c => by simp, fun c => by simp, fun u => by simp⟩
  · rw [hout]
    simp
  · intro entry hentry
    rw [hout]
    simp only [PLUGIN_REGISTRY, List.mem_cons, List.not_mem_nil, or_false] at hentry
    rcases hentry with rfl | rfl | rfl <;> simp

/-- C6 witness: the name notaplugin is unknown; the error line is printed
and the filesystem is untouched. -/
theorem c6_witness :
    Ev.err ("Unknown plugin: notaplugin")
      ∈ (installPlugin wpWorld ("notaplugin") [] (Proc.mk (FS.mk [] []) [] 0)).out ∧
    (installPlugin wpWorld ("notaplugin") [] (Proc.mk (FS.mk [] []) [] 0)).fs = FS.mk [] [] := by
  have h := c6_unknown_plugin wpWorld ("notaplugin") [] (FS.mk [] []) (by decide)
  exact ⟨h.2.1, h.2.2.2⟩

/-- C10: when the npm self-update succeeds and the skills root directory
exists, the update command removes every skill directory below the skills
root together with everything inside it, issues no fetch of any skill file,
and so leaves zero skills installed. -/
theorem c10_update_removes_all_skills (w : World) (fs0 : FS)
    (hnpm : w.execOk UPDATE_CMD = true)
    (hwf : fs0.wfb = true)
    (hdir : fs0.isDir OPENCLAW_DIR = true) :
    (∀ (n : String) (q : Path), (OPENCLAW_DIR ++ [n]) <+: q →
      q ∉ (handleUpdate w (Proc.mk fs0 [] 0)).fs.dirs) ∧
    (∀ (n : String) (q : Path), (OPENCLAW_DIR ++ [n]) <+: q → ¬ (q = OPENCLAW_DIR ++ [n]) →
      (handleUpdate w (Proc.mk fs0 [] 0)).fs.fileContent q = none) ∧
    (∀ e ∈ (handleUpdate w (Proc.mk fs0 [] 0)).out, ∀ url, e ≠ Ev.fetch url) := by
  have hex : fs0.existsSync OPENCLAW_DIR = true := by
    rw [FS.existsSync, hdir]
    rfl
  have hkeyD : ∀ (n : String) (q : Path), (OPENCLAW_DIR ++ [n]) <+: q → q ∈ fs0.dirs →
      n ∈ fs0.childDirNames OPENCLAW_DIR := by
    intro n q hpre hq
    have hm : (OPENCLAW_DIR ++ [n]) ∈ pathPrefixes q :=
      mem_pathPrefixes.2 ⟨by simp, hpre⟩
    exact (mem_childDirNames fs0 OPENCLAW_DIR n).2 (FS.wfb_dirs fs0 hwf q hq _ hm)
  have hkeyF : ∀ (n : String) (q : Path), (OPENCLAW_DIR ++ [n]) <+: q →
      ¬ (q = OPENCLAW_DIR ++ [n]) → ∀ c, fs0.fileContent q = some c →
      n ∈ fs0.childDirNames OPENCLAW_DIR := by
    intro n q hpre hne c hc
    have hmem := lookupFile_some_mem hc
    obtain ⟨t, rfl⟩ := hpre
    have ht : t ≠ [] := by
      intro h
      subst h
      exact hne (by simp)
    have hdrop : ((OPENCLAW_DIR ++ [n]) ++ t).dropLast = (OPENCLAW_DIR ++ [n]) ++ t.dropLast :=
      List.dropLast_append_of_ne_nil _ ht
    have hm : (OPENCLAW_DIR ++ [n]) ∈ pathPrefixes (((OPENCLAW_DIR ++ [n]) ++ t).dropLast) := by
      rw [hdrop]
      exact mem_pathPrefixes.2 ⟨by simp, List.prefix_append _ _⟩
    exact (mem_childDirNames fs0 OPENCLAW_DIR n).2 (FS.wfb_files fs0 hwf _ hmem _ hm)
  by_cases hskills : (fs0.childDirNames OPENCLAW_DIR).isEmpty = true
  · have hnil : fs0.childDirNames OPENCLAW_DIR = [] := by
      cases hh : fs0.childDirNames OPENCLAW_DIR with
      | nil => rfl
      | cons a t => rw [hh] at hskills; simp [List.isEmpty] at hskills
    refine ⟨?_, ?_, ?_⟩
    · intro n q hpre hq
      have hq0 : q ∈ fs0.dirs := by
        simpa [handleUpdate, hnpm, hex, hskills, Proc.log, Proc.emit, Proc.success] using hq
      have := hkeyD n q hpre hq0
      rw [hnil] at this
      simp at this
    · intro n q hpre hne
      cases hc : (handleUpdate w (Proc.mk fs0 [] 0)).fs.fileContent q with
      | none => rfl
      | some c =>
          exfalso
          have hc0 : fs0.fileContent q = some c := by
            simpa [handleUpdate, hnpm, hex, hskills, Proc.log, Proc.emit, Proc.success] using hc
          have := hkeyF n q hpre hne c hc0
          rw [hnil] at this
          simp at this
    · intro e he url
      have he0 : e ∈ [Ev.log ("Updating Skunk CLI..."), Ev.exec UPDATE_CMD,
          Ev.success ("Skunk CLI updated"), Ev.success ("Update complete"),
          Ev.log ("undefined")] := by
        simpa [handleUpdate, hnpm, hex, hskills, Proc.log, Proc.emit, Proc.success] using he
      simp only [List.mem_cons, List.not_mem_nil, or_false] at he0
      rcases he0 with rfl | rfl | rfl | rfl | rfl <;> simp
  · have hskillsF : (fs0.childDirNames OPENCLAW_DIR).isEmpty = false := by
      cases hb : (fs0.childDirNames OPENCLAW_DIR).isEmpty
      · rfl
      · exact absurd hb hskills
    refine ⟨?_, ?_, ?_⟩
    · intro n q hpre hq
      have hq0 : q ∈ (updateFold (fs0.childDirNames OPENCLAW_DIR)
          (Proc.mk fs0 [Ev.log ("Updating Skunk CLI..."), Ev.exec UPDATE_CMD,
            Ev.success ("Skunk CLI updated"), Ev.log ("Refreshing installed skills...")] 0)).fs.dirs := by
        simpa [handleUpdate, hnpm, hex, hskillsF, Proc.log, Proc.emit, Proc.success] using hq
      obtain ⟨hq1, hall⟩ := updateFold_dirs _ _ q hq0
      exact hall n (hkeyD n q hpre hq1) hpre
    · intro n q hpre hne
      cases hc : (handleUpdate w (Proc.mk fs0 [] 0)).fs.fileContent q with
      | none => rfl
      | some c =>
          exfalso
          have hc0 : (updateFold (fs0.childDirNames OPENCLAW_DIR)
              (Proc.mk fs0 [Ev.log ("Updating Skunk CLI..."), Ev.exec UPDATE_CMD,
                Ev.success ("Skunk CLI updated"), Ev.log ("Refreshing installed skills...")] 0)).fs.fileContent q = some c := by
            simpa [handleUpdate, hnpm, hex, hskillsF, Proc.log, Proc.emit, Proc.success] using hc
          obtain ⟨hc1, hall⟩ := updateFold_fileContent _ _ q c hc0
          exact hall n (hkeyF n q hpre hne c hc1) hpre
    · intro e he url
      have he0 : e ∈ ((updateFold (fs0.childDirNames OPENCLAW_DIR)
          (Proc.mk fs0 [Ev.log ("Updating Skunk CLI..."), Ev.exec UPDATE_CMD,
            Ev.success ("Skunk CLI updated"), Ev.log ("Refreshing installed skills...")] 0)).out ++
          [Ev.log ("Run \"skunk list\" to verify skills."), Ev.success ("Update complete"),
           Ev.log ("undefined")]) := by
        simpa [handleUpdate, hnpm, hex, hskillsF, Proc.log, Proc.emit, Proc.success] using he
      rcases List.mem_append.1 he0 with h1 | h1
      · rcases updateFold_out _ _ e h1 with h2 | ⟨s, rfl⟩
        · simp only [List.mem_cons, List.not_mem_nil, or_false] at h2
          rcases h2 with rfl | rfl | rfl | rfl <;> simp
        · simp
      · simp only [List.mem_cons, List.not_mem_nil, or_false] at h1
        rcases h1 with rfl | rfl | rfl <;> simp

/-- C10 witness: with one installed skill, a successful npm update and a
well-formed filesystem, no skill directory survives the update. -/
theorem c10_witness :
    (OPENCLAW_DIR ++ ["demo"]) ∉
      (handleUpdate (World.mk (fun _ => HttpResp.netError) (fun _ => false) (fun _ => true))
        (Proc.mk demoFS [] 0)).fs.dirs := by
  have h := c10_update_removes_all_skills
    (World.mk (fun _ => HttpResp.netError) (fun _ => false) (fun _ => true)) demoFS
    (by decide) (by decide) (by decide)
  exact h.1 ("demo") (OPENCLAW_DIR ++ ["demo"]) (List.prefix_refl _)

end SkunkCLI
